import Mathlib

/-
Verification of the layout/pagination engine of the Intelligent_typesetting
repository (`src/models/ckip_processor.py`).

The engine's data model and algorithms are embedded shallowly:
Python strings become `List Char`, Python ints become `Int` (document
offsets, which are always non-negative, become `Nat`), dictionaries become
association lists, and the stateful `_generate_pages` loop becomes a fold
over an explicit state record.
-/

namespace Typeset

/-- `TokenInfo` from `ckip_processor.py`: one token of the annotated input. -/
structure TokenInfo where
  text : List Char
  pos : String
  start : Nat
  «end» : Nat
  is_entity : Bool := false
  entity_type : Option String := none
deriving DecidableEq

/-- `EntityInfo` from `ckip_processor.py`: a named-entity span in
document-absolute half-open coordinates. -/
structure EntityInfo where
  text : List Char
  «type» : String
  start : Nat
  «end» : Nat
deriving DecidableEq

/-- The `line_info` dict built by `_generate_pages`. -/
structure LineInfo where
  text : List Char
  offset : Nat
  length : Nat
  tokens : List TokenInfo
deriving DecidableEq

/-- The `entity_info` dict built by `_add_entities_to_pages`; the rewritten
`start`/`end` are `entity.start - line_start` in Python int arithmetic, which
may be negative, hence `Int`. -/
structure ProjectedEntity where
  text : List Char
  «type» : String
  start : Int
  «end» : Int
  line_idx : Nat
deriving DecidableEq

/-- `PageLayout` from `ckip_processor.py`. -/
structure PageLayout where
  page_id : Nat
  lines : List LineInfo
  entities : List ProjectedEntity
  total_chars : Nat := 0
deriving DecidableEq

/-- `self.no_break_punctuation` from `CkipProcessor.__init__`. -/
def no_break_punctuation : List (List Char) :=
  [[','], ['，'], ['.'], ['。'], ['!'], ['！'], ['?'], ['？'], [';'], ['；'], [':'], ['：']]

/-- `CkipProcessor._should_break_line`.  `cap` is `self.chars_per_line`. -/
def shouldBreakLine (cap : Int) (current_line : List Char) (token : TokenInfo)
    (current_tokens : List TokenInfo) : Bool :=
  if (current_line.length : Int) + (token.text.length : Int) > cap then
    true
  else if no_break_punctuation.contains token.text && current_line.length == 0 then
    false
  else
    false

/-- The mutable loop state of `CkipProcessor._generate_pages`. -/
structure GenState where
  pages : List PageLayout
  current_page : PageLayout
  current_line : List Char
  current_line_tokens : List TokenInfo
  line_offset : Nat
deriving DecidableEq

/-- The body of `if current_line:` inside the loop of `_generate_pages`:
append the finished line to the current page and advance `line_offset`. -/
def closeLine (s : GenState) : GenState :=
  { s with
    current_page := { s.current_page with
      lines := s.current_page.lines ++
        [{ text := s.current_line, offset := s.line_offset,
           length := s.current_line.length, tokens := s.current_line_tokens }],
      total_chars := s.current_page.total_chars + s.current_line.length },
    line_offset := s.line_offset + s.current_line.length }

/-- The `if len(current_page.lines) >= self.lines_per_page:` block of
`_generate_pages`: close the full page and start a fresh one whose
`page_id` is `len(pages) + 1` computed after the append. -/
def closePageIfFull (p : Int) (s : GenState) : GenState :=
  if (s.current_page.lines.length : Int) ≥ p then
    let newPages := s.pages ++ [s.current_page]
    { s with pages := newPages,
             current_page := { page_id := newPages.length + 1, lines := [],
                               entities := [], total_chars := 0 } }
  else
    s

/-- The `current_line = ""; current_line_tokens = []` reset of
`_generate_pages`. -/
def resetLine (s : GenState) : GenState :=
  { s with current_line := [], current_line_tokens := [] }

/-- The unconditional tail of the loop body: `current_line += token.text;
current_line_tokens.append(token)`. -/
def appendTok (t : TokenInfo) (s : GenState) : GenState :=
  { s with current_line := s.current_line ++ t.text,
           current_line_tokens := s.current_line_tokens ++ [t] }

/-- One iteration of the `while i < len(tokens)` loop of `_generate_pages`. -/
def stepToken (cap p : Int) (s : GenState) (t : TokenInfo) : GenState :=
  if shouldBreakLine cap s.current_line t s.current_line_tokens then
    appendTok t (resetLine (closePageIfFull p
      (if s.current_line = [] then s else closeLine s)))
  else
    appendTok t s

/-- The `# 处理最后一行` block after the loop: like `closeLine` but the
source does not advance `line_offset` there (the state is discarded). -/
def closeLastLine (s : GenState) : GenState :=
  { s with
    current_page := { s.current_page with
      lines := s.current_page.lines ++
        [{ text := s.current_line, offset := s.line_offset,
           length := s.current_line.length, tokens := s.current_line_tokens }],
      total_chars := s.current_page.total_chars + s.current_line.length } }

/-- State before the two `while`-initialization of `_generate_pages`. -/
def initState : GenState :=
  { pages := [],
    current_page := { page_id := 1, lines := [], entities := [], total_chars := 0 },
    current_line := [], current_line_tokens := [], line_offset := 0 }

/-- The overlap test of `_add_entities_to_pages`:
`(entity.start >= line_start and entity.start < line_end) or
 (entity.end > line_start and entity.end <= line_end)`. -/
def lineOverlap (e : EntityInfo) (line : LineInfo) : Bool :=
  let line_start := line.offset
  let line_end := line.offset + line.length
  (decide (e.start ≥ line_start) && decide (e.start < line_end)) ||
  (decide (e.«end» > line_start) && decide (e.«end» ≤ line_end))

/-- The inner `for line in page.lines: ... break` of
`_add_entities_to_pages`: the entity is attached to the first line of the
page that it overlaps, with coordinates rewritten relative to that line and
`line_idx` obtained as `page.lines.index(line)` (first index of an equal
line). `none` when no line of the page overlaps. -/
def projectEntity (lines : List LineInfo) (e : EntityInfo) : Option ProjectedEntity :=
  match lines.find? (fun l => lineOverlap e l) with
  | none => none
  | some l =>
      some { text := e.text, «type» := e.«type»,
             start := (e.start : Int) - (l.offset : Int),
             «end» := (e.«end» : Int) - (l.offset : Int),
             line_idx := lines.findIdx (fun l' => l' == l) }

/-- `CkipProcessor._add_entities_to_pages`: for every page independently,
collect one projected record per entity that overlaps some line of that
page, in entity order. -/
def addEntitiesToPages (pages : List PageLayout) (entities : List EntityInfo) :
    List PageLayout :=
  pages.map (fun page =>
    { page with entities := entities.filterMap (projectEntity page.lines) })

/-- The `if current_line:` block after the loop of `_generate_pages`. -/
def lastLineState (s : GenState) : GenState :=
  if s.current_line = [] then s else closeLastLine s

/-- The `if current_page.lines:` block of `_generate_pages`: append the
final page only when it is non-empty. -/
def finalPages (s : GenState) : List PageLayout :=
  if (lastLineState s).current_page.lines = [] then (lastLineState s).pages
  else (lastLineState s).pages ++ [(lastLineState s).current_page]

/-- `CkipProcessor._generate_pages`.  `cap` is `self.chars_per_line`, `p` is
`self.lines_per_page`.  (The source also builds an `entity_positions` index
at the top of the function, but that dictionary is never read afterwards, so
it has no effect on the result.) -/
def generatePages (cap p : Int) (tokens : List TokenInfo)
    (entities : List EntityInfo) : List PageLayout :=
  addEntitiesToPages (finalPages (tokens.foldl (stepToken cap p) initState)) entities

/-- All lines of a page list, in page order then line order. -/
def allLines (pages : List PageLayout) : List LineInfo :=
  (pages.map (·.lines)).flatten

/-- Concatenation of the texts of a list of lines. -/
def joinL (ls : List LineInfo) : List Char :=
  (ls.map (·.text)).flatten

/-- Concatenation of the texts of a list of tokens. -/
def joinT (ts : List TokenInfo) : List Char :=
  (ts.map (·.text)).flatten

/-- The document text of a finished layout: all lines' texts in page/line
order, concatenated. -/
def docText (pages : List PageLayout) : List Char :=
  joinL (allLines pages)

/-! ### Offset tracker: `CkipProcessor._build_tokens` -/

/-- Fuel-driven scan behind `strFind`: the smallest position `j ≥ i` at
which `word` occurs in `text`, provided the remaining fuel covers the scan. -/
def findFromAux (text word : List Char) : Nat → Nat → Option Nat
  | _, 0 => none
  | i, fuel + 1 =>
    if i + word.length ≤ text.length then
      if word.isPrefixOf (text.drop i) then some i
      else findFromAux text word (i + 1) fuel
    else none

/-- Python's `text.find(word, i)`: the first index `j ≥ i` where `word`
occurs as a substring of `text`, or `none` (Python `-1`) when there is no
occurrence. -/
def strFind (text word : List Char) (i : Nat) : Option Nat :=
  findFromAux text word i (text.length + 1 - i)

/-- Lookup in the `entity_map` dict of `_build_tokens`: keyed by the span
`(idx0, idx1)`, later insertions overwrite earlier ones, so the lookup
returns the ner label of the last matching NER record. -/
def entityLookup (ner : List (Nat × Nat × String)) (s e : Nat) : Option String :=
  (ner.reverse.find? (fun x => x.1 == s && x.2.1 == e)).map (·.2.2)

/-- The `start` computed for one word of `_build_tokens`:
`text.find(word, current_pos)` with the fallback `start = current_pos` when
the text is not found (Python `-1`). -/
def nextStart (text word : List Char) (current_pos : Nat) : Nat :=
  (strFind text word current_pos).getD current_pos

/-- The `for word, pos_tag in zip(ws, pos)` loop of `_build_tokens`,
threading `current_pos = end` from token to token. -/
def buildTokensGo (text : List Char) (ner : List (Nat × Nat × String)) :
    List (List Char × String) → Nat → List TokenInfo
  | [], _ => []
  | (word, pos_tag) :: rest, current_pos =>
    { text := word, pos := pos_tag,
      start := nextStart text word current_pos,
      «end» := nextStart text word current_pos + word.length,
      is_entity := (entityLookup ner (nextStart text word current_pos)
        (nextStart text word current_pos + word.length)).isSome,
      entity_type := entityLookup ner (nextStart text word current_pos)
        (nextStart text word current_pos + word.length) } ::
      buildTokensGo text ner rest (nextStart text word current_pos + word.length)

/-- `CkipProcessor._build_tokens` (the NER argument is reduced to the
triples `(idx0, idx1, ner)` that the function reads). -/
def buildTokens (text : List Char) (ws : List (List Char)) (pos : List String)
    (ner : List (Nat × Nat × String)) : List TokenInfo :=
  buildTokensGo text ner (ws.zip pos) 0

/-! ### Plain-text serializers -/

/-- Decimal digit character. -/
def digitChar (n : Nat) : Char := Char.ofNat (48 + n % 10)

/-- Decimal digits of `n`, most significant first (fuel-driven). -/
def natDigitsAux : Nat → Nat → List Char → List Char
  | 0, _, acc => acc
  | fuel + 1, n, acc =>
    if n < 10 then digitChar n :: acc
    else natDigitsAux fuel (n / 10) (digitChar n :: acc)

/-- Decimal rendering of a natural number. -/
def natToStr (n : Nat) : List Char := natDigitsAux (n + 1) n []

/-- Python's `f"{n:0wd}"`: decimal, left-padded with zeros to width `w`. -/
def padNum (w n : Nat) : List Char :=
  let d := natToStr n
  List.replicate (w - d.length) '0' ++ d

/-- The `lines` list built by `CkipProcessor._generate_txt_content` in the
source: a `第 N 页` banner between pages (no structural markers), each
page's line texts, and a trailing blank line per page. -/
def generateTxtContentLines (cap : Int) (pages : List PageLayout) :
    List (List Char) :=
  pages.foldl (fun ls page =>
    let ls :=
      if page.page_id > 1 then
        ls ++ [[], List.replicate cap.toNat '=',
               "第 ".data ++ natToStr page.page_id ++ " 页".data,
               List.replicate cap.toNat '=', []]
      else ls
    let ls := ls ++ page.lines.map (·.text)
    ls ++ [[]]) []

/-- `CkipProcessor._generate_txt_content` itself: the method body builds the
list modelled by `generateTxtContentLines` but ends without a `return`
statement, so the Python function returns `None` (never a string). -/
def generateTxtContent (cap : Int) (pages : List PageLayout) : Option (List Char) :=
  let _ := generateTxtContentLines cap pages
  none

/-- `<PAGE_NNN_START>` marker with the page number zero-padded to width 3. -/
def pageStartMarker (page_id : Nat) : List Char :=
  "<PAGE_".data ++ padNum 3 page_id ++ "_START>".data

/-- `<PAGE_NNN_END>` marker. -/
def pageEndMarker (page_id : Nat) : List Char :=
  "<PAGE_".data ++ padNum 3 page_id ++ "_END>".data

/-- `<LINE_NNN_MM>` marker: page number zero-padded to width 3, 1-based
in-page line number zero-padded to width 2. -/
def lineMarker (page_id lineno : Nat) : List Char :=
  "<LINE_".data ++ padNum 3 page_id ++ "_".data ++ padNum 2 lineno ++ ">".data

/-- Modelled from the spec: the positional plain-text serializer with
`<PAGE_NNN_START>` / `<LINE_NNN_MM> <line text>` / `<PAGE_NNN_END>` markers
and a blank separator line between pages.  This serializer is absent from
`ckip_processor.py`; it appears in the repository only as the
`generate_txt_content` function of `test_txt_format_simple.py`, from which
this definition is taken. -/
def specTxtContentLines (pages : List PageLayout) : List (List Char) :=
  pages.foldl (fun ls page =>
    let ls := if page.page_id > 1 then ls ++ [[]] else ls
    let ls := ls ++ [pageStartMarker page.page_id, []]
    let ls := ls ++
      ((List.range page.lines.length).zip page.lines).map
        (fun x => lineMarker page.page_id (x.1 + 1) ++ [' '] ++ x.2.text)
    ls ++ [pageEndMarker page.page_id, []]) []

/-- The `"\n".join(lines)` of the marker serializer. -/
def specTxtContent (pages : List PageLayout) : List Char :=
  List.intercalate ['\n'] (specTxtContentLines pages)

/-! ### Invariants of the pagination loop -/

/-- The line that `closeLine` would emit from the current state. -/
def curLine (s : GenState) : LineInfo :=
  { text := s.current_line, offset := s.line_offset,
    length := s.current_line.length, tokens := s.current_line_tokens }

/-- All lines held by a state: lines of finished pages, then lines of the
page under construction. -/
def allStateLines (s : GenState) : List LineInfo :=
  (s.pages.map (·.lines)).flatten ++ s.current_page.lines

/-- `offsetsFrom n ls`: the offsets of `ls` are the running sums starting at
`n`, each line advancing by its own `length`. -/
def offsetsFrom : Nat → List LineInfo → Prop
  | _, [] => True
  | n, l :: ls => l.offset = n ∧ offsetsFrom (n + l.length) ls

/-- The running invariant of `_generate_pages`' token loop: `done` is the
list of tokens consumed so far. -/
structure Inv (done : List TokenInfo) (s : GenState) : Prop where
  textEq : joinL (allStateLines s) ++ s.current_line = joinT done
  curTok : s.current_line = joinT s.current_line_tokens
  cover : ∀ t ∈ done, t.text ≠ [] →
    (∃ l ∈ allStateLines s, t ∈ l.tokens) ∨ t ∈ s.current_line_tokens
  wf : ∀ l ∈ allStateLines s, l.length = l.text.length ∧ l.text = joinT l.tokens
  offs : offsetsFrom 0 (allStateLines s)
  offEq : s.line_offset = ((allStateLines s).map (·.length)).sum
  ids : s.pages.map (·.page_id) = List.range' 1 s.pages.length
  curId : s.current_page.page_id = s.pages.length + 1

/-- Every held line respects the capacity unless it consists of a single
token; likewise for the line under construction. -/
structure CapInv (cap : Nat) (s : GenState) : Prop where
  linesOk : ∀ l ∈ allStateLines s, l.text.length ≤ cap ∨ ∃ t, l.tokens = [t]
  curOk : s.current_line.length ≤ cap ∨ ∃ t, s.current_line_tokens = [t]

/-- Every finished page holds exactly `p` lines and the page under
construction holds fewer than `p`. -/
structure PageInv (p : Nat) (s : GenState) : Prop where
  pagesOk : ∀ pg ∈ s.pages, pg.lines.length = p
  curOk : s.current_page.lines.length < p

/-! ### Concrete inputs used by counterexamples and witnesses -/

/-- Token `"AB"` at document span `[0, 2)`. -/
def tAB : TokenInfo := { text := "AB".data, pos := "Na", start := 0, «end» := 2 }

/-- Token `"CD"` at document span `[2, 4)`. -/
def tCD : TokenInfo := { text := "CD".data, pos := "Na", start := 2, «end» := 4 }

/-- Entity `"BC"` spanning `[1, 3)` — across the boundary of the two lines
produced from `[tAB, tCD]` with `chars_per_line = 2`. -/
def eBC : EntityInfo := { text := "BC".data, «type» := "X", start := 1, «end» := 3 }

/-- The first line of `generatePages 2 1 [tAB, tCD] _`. -/
def lineAB : LineInfo := { text := "AB".data, offset := 0, length := 2, tokens := [tAB] }

/-- The second line of `generatePages 2 1 [tAB, tCD] _`. -/
def lineCD : LineInfo := { text := "CD".data, offset := 2, length := 2, tokens := [tCD] }

/-- The first page of `generatePages 2 1 [tAB, tCD] []`. -/
def pageABWit : PageLayout :=
  { page_id := 1, lines := [lineAB], entities := [], total_chars := 2 }

/-- The first page of `generatePages 2 1 [tAB, tCD] [eBC]`: `eBC` attached
to line 0 with line-relative span `[1, 3)`. -/
def pageC1Wit : PageLayout :=
  { page_id := 1, lines := [lineAB],
    entities := [{ text := "BC".data, «type» := "X", start := 1, «end» := 3, line_idx := 0 }],
    total_chars := 2 }

/-- A concrete two-page layout fed to the serializers. -/
def pagesC6 : List PageLayout := generatePages 2 1 [tAB, tCD] []

theorem joinT_append (a b : List TokenInfo) : joinT (a ++ b) = joinT a ++ joinT b := by
  simp [joinT]

theorem joinT_single (t : TokenInfo) : joinT [t] = t.text := by
  simp [joinT]

theorem joinL_append (a b : List LineInfo) : joinL (a ++ b) = joinL a ++ joinL b := by
  simp [joinL]

theorem joinL_single (l : LineInfo) : joinL [l] = l.text := by
  simp [joinL]

theorem joinT_eq_nil {ts : List TokenInfo} (h : joinT ts = []) :
    ∀ t ∈ ts, t.text = [] := by
  intro t ht
  have := List.flatten_eq_nil_iff.mp h
  exact this t.text (List.mem_map_of_mem _ ht)

theorem offsetsFrom_append_single {n : Nat} {ls : List LineInfo} {l : LineInfo}
    (h : offsetsFrom n ls) (hl : l.offset = n + (ls.map (·.length)).sum) :
    offsetsFrom n (ls ++ [l]) := by
  induction ls generalizing n with
  | nil => simpa [offsetsFrom] using hl
  | cons a as ih =>
    obtain ⟨ha, has⟩ := h
    refine ⟨ha, ih has ?_⟩
    simp only [List.map_cons, List.sum_cons] at hl
    omega

@[simp] theorem allStateLines_appendTok (t : TokenInfo) (s : GenState) :
    allStateLines (appendTok t s) = allStateLines s := rfl

@[simp] theorem allStateLines_resetLine (s : GenState) :
    allStateLines (resetLine s) = allStateLines s := rfl

@[simp] theorem current_line_appendTok (t : TokenInfo) (s : GenState) :
    (appendTok t s).current_line = s.current_line ++ t.text := rfl

@[simp] theorem current_line_tokens_appendTok (t : TokenInfo) (s : GenState) :
    (appendTok t s).current_line_tokens = s.current_line_tokens ++ [t] := rfl

@[simp] theorem current_line_resetLine (s : GenState) :
    (resetLine s).current_line = [] := rfl

@[simp] theorem current_line_tokens_resetLine (s : GenState) :
    (resetLine s).current_line_tokens = [] := rfl

@[simp] theorem line_offset_appendTok (t : TokenInfo) (s : GenState) :
    (appendTok t s).line_offset = s.line_offset := rfl

@[simp] theorem line_offset_resetLine (s : GenState) :
    (resetLine s).line_offset = s.line_offset := rfl

@[simp] theorem pages_appendTok (t : TokenInfo) (s : GenState) :
    (appendTok t s).pages = s.pages := rfl

@[simp] theorem pages_resetLine (s : GenState) :
    (resetLine s).pages = s.pages := rfl

@[simp] theorem current_page_appendTok (t : TokenInfo) (s : GenState) :
    (appendTok t s).current_page = s.current_page := rfl

@[simp] theorem current_page_resetLine (s : GenState) :
    (resetLine s).current_page = s.current_page := rfl

@[simp] theorem pages_closeLine (s : GenState) : (closeLine s).pages = s.pages := rfl

@[simp] theorem page_id_closeLine (s : GenState) :
    (closeLine s).current_page.page_id = s.current_page.page_id := rfl

@[simp] theorem line_offset_closeLine (s : GenState) :
    (closeLine s).line_offset = s.line_offset + s.current_line.length := rfl

theorem line_offset_closePageIfFull (p : Int) (s : GenState) :
    (closePageIfFull p s).line_offset = s.line_offset := by
  unfold closePageIfFull; split <;> rfl

theorem allStateLines_closeLine (s : GenState) :
    allStateLines (closeLine s) = allStateLines s ++ [curLine s] := by
  simp [closeLine, allStateLines, curLine]

theorem allStateLines_closeLastLine (s : GenState) :
    allStateLines (closeLastLine s) = allStateLines s ++ [curLine s] := by
  simp [closeLastLine, allStateLines, curLine]

theorem allStateLines_closePageIfFull (p : Int) (s : GenState) :
    allStateLines (closePageIfFull p s) = allStateLines s := by
  unfold closePageIfFull
  split
  · simp [allStateLines]
  · rfl

theorem pages_closePageIfFull (p : Int) (s : GenState)
    (hids : s.pages.map (·.page_id) = List.range' 1 s.pages.length)
    (hcur : s.current_page.page_id = s.pages.length + 1) :
    (closePageIfFull p s).pages.map (·.page_id) =
      List.range' 1 (closePageIfFull p s).pages.length ∧
    (closePageIfFull p s).current_page.page_id = (closePageIfFull p s).pages.length + 1 := by
  unfold closePageIfFull
  split
  · constructor
    · simp only [List.map_append, hids, List.map_cons, List.map_nil, hcur,
        List.length_append, List.length_cons, List.length_nil]
      rw [List.range'_concat]
      simp [Nat.mul_comm]
      omega
    · simp
  · exact ⟨hids, hcur⟩

theorem inv_init : Inv [] initState := by
  refine ⟨?_, ?_, ?_, ?_, ?_, ?_, ?_, ?_⟩ <;>
    simp [initState, allStateLines, joinL, joinT, offsetsFrom]

theorem inv_step (cap p : Int) (t : TokenInfo) {done : List TokenInfo} {s : GenState}
    (h : Inv done s) : Inv (done ++ [t]) (stepToken cap p s t) := by
  obtain ⟨hA, hB, hG, hW, hO, hOE, hI, hC⟩ := h
  unfold stepToken
  by_cases hb : shouldBreakLine cap s.current_line t s.current_line_tokens = true
  · rw [if_pos hb]
    by_cases hcl : s.current_line = []
    · -- break with empty current line: no line is emitted
      rw [if_pos hcl]
      have hL : allStateLines (closePageIfFull p s) = allStateLines s :=
        allStateLines_closePageIfFull p s
      have hempty : joinL (allStateLines s) = joinT done := by
        have := hA; rw [hcl] at this; simpa using this
      obtain ⟨hI', hC'⟩ := pages_closePageIfFull p s hI hC
      refine ⟨?_, ?_, ?_, ?_, ?_, ?_, ?_, ?_⟩
      · simp [hL, hempty, joinT_append, joinT_single]
      · simp [joinT_single]
      · intro t' ht' hne
        simp only [allStateLines_appendTok, allStateLines_resetLine, hL,
          current_line_tokens_appendTok, current_line_tokens_resetLine]
        rcases List.mem_append.mp ht' with hd | hsing
        · rcases hG t' hd hne with ⟨l, hl, htl⟩ | hct
          · exact Or.inl ⟨l, hl, htl⟩
          · exfalso
            have : t'.text = [] := joinT_eq_nil (hcl ▸ hB.symm) t' hct
            exact hne this
        · have : t' = t := by simpa using hsing
          subst this
          exact Or.inr (by simp)
      · intro l hl
        apply hW
        simpa [hL] using hl
      · simpa [hL] using hO
      · simpa [hL, line_offset_closePageIfFull] using hOE
      · simpa using hI'
      · simpa using hC'
    · -- break with a non-empty current line: the line is emitted first
      rw [if_neg hcl]
      have hL1 : allStateLines (closeLine s) = allStateLines s ++ [curLine s] :=
        allStateLines_closeLine s
      have hIds1 : (closeLine s).pages.map (·.page_id) =
          List.range' 1 (closeLine s).pages.length := by
        simpa using hI
      have hCur1 : (closeLine s).current_page.page_id = (closeLine s).pages.length + 1 := by
        simpa using hC
      obtain ⟨hI', hC'⟩ := pages_closePageIfFull p (closeLine s) hIds1 hCur1
      have hL2 : allStateLines (closePageIfFull p (closeLine s)) =
          allStateLines s ++ [curLine s] := by
        rw [allStateLines_closePageIfFull, hL1]
      refine ⟨?_, ?_, ?_, ?_, ?_, ?_, ?_, ?_⟩
      · simp only [allStateLines_appendTok, allStateLines_resetLine, hL2,
          current_line_appendTok, current_line_resetLine, List.nil_append,
          joinL_append, joinL_single, joinT_append, joinT_single, curLine]
        rw [List.append_assoc, ← hA]
        simp [List.append_assoc]
      · simp [joinT_single]
      · intro t' ht' hne
        simp only [allStateLines_appendTok, allStateLines_resetLine, hL2,
          current_line_tokens_appendTok, current_line_tokens_resetLine]
        rcases List.mem_append.mp ht' with hd | hsing
        · rcases hG t' hd hne with ⟨l, hl, htl⟩ | hct
          · exact Or.inl ⟨l, List.mem_append_left _ hl, htl⟩
          · exact Or.inl ⟨curLine s, List.mem_append_right _ (by simp), hct⟩
        · have : t' = t := by simpa using hsing
          subst this
          exact Or.inr (by simp)
      · intro l hl
        simp only [allStateLines_appendTok, allStateLines_resetLine, hL2] at hl
        rcases List.mem_append.mp hl with hold | hnew
        · exact hW l hold
        · have : l = curLine s := by simpa using hnew
          subst this
          exact ⟨rfl, hB⟩
      · simp only [allStateLines_appendTok, allStateLines_resetLine, hL2]
        exact offsetsFrom_append_single hO (by simpa [curLine] using hOE)
      · simp only [line_offset_appendTok, line_offset_resetLine,
          line_offset_closePageIfFull, line_offset_closeLine,
          allStateLines_appendTok, allStateLines_resetLine, hL2]
        simp [curLine, hOE]
      · simpa using hI'
      · simpa using hC'
  · rw [if_neg hb]
    refine ⟨?_, ?_, ?_, ?_, ?_, ?_, ?_, ?_⟩
    · simp only [allStateLines_appendTok, current_line_appendTok]
      rw [← List.append_assoc, hA]
      simp [joinT_append, joinT_single]
    · simp [hB, joinT_append, joinT_single]
    · intro t' ht' hne
      simp only [allStateLines_appendTok, current_line_tokens_appendTok]
      rcases List.mem_append.mp ht' with hd | hsing
      · rcases hG t' hd hne with ⟨l, hl, htl⟩ | hct
        · exact Or.inl ⟨l, hl, htl⟩
        · exact Or.inr (List.mem_append_left _ hct)
      · have : t' = t := by simpa using hsing
        subst this
        exact Or.inr (by simp)
    · intro l hl
      exact hW l (by simpa using hl)
    · simpa using hO
    · simpa using hOE
    · simpa using hI
    · simpa using hC

theorem inv_foldl (cap p : Int) :
    ∀ (ts done : List TokenInfo) (s : GenState), Inv done s →
      Inv (done ++ ts) (ts.foldl (stepToken cap p) s) := by
  intro ts
  induction ts with
  | nil => intro done s h; simpa using h
  | cons t ts ih =>
    intro done s h
    simp only [List.foldl_cons]
    have := ih (done ++ [t]) _ (inv_step cap p t h)
    simpa using this

theorem inv_run (cap p : Int) (tokens : List TokenInfo) :
    Inv tokens (tokens.foldl (stepToken cap p) initState) := by
  simpa using inv_foldl cap p tokens [] initState inv_init

/-! ### Finalization lemmas -/

@[simp] theorem pages_lastLineState (s : GenState) :
    (lastLineState s).pages = s.pages := by
  unfold lastLineState; split <;> rfl

@[simp] theorem page_id_lastLineState (s : GenState) :
    (lastLineState s).current_page.page_id = s.current_page.page_id := by
  unfold lastLineState closeLastLine; split <;> rfl

theorem allLines_finalPages (s : GenState) :
    allLines (finalPages s) =
      allStateLines s ++ (if s.current_line = [] then [] else [curLine s]) := by
  unfold finalPages lastLineState
  by_cases hcl : s.current_line = []
  · rw [if_pos hcl, if_pos hcl]
    split
    · next h => simp [allLines, allStateLines, h]
    · simp [allLines, allStateLines]
  · rw [if_neg hcl, if_neg hcl]
    have hne : (closeLastLine s).current_page.lines ≠ [] := by
      simp [closeLastLine]
    rw [if_neg hne]
    simp [allLines, allStateLines, closeLastLine, curLine, List.append_assoc]

theorem finalPages_cases (s : GenState) :
    (finalPages s = s.pages ∧ (lastLineState s).current_page.lines = []) ∨
    (finalPages s = s.pages ++ [(lastLineState s).current_page] ∧
      (lastLineState s).current_page.lines ≠ []) := by
  unfold finalPages
  split
  · next h => exact Or.inl ⟨by simp, h⟩
  · next h => exact Or.inr ⟨by simp, h⟩

theorem map_lines_addEntities (ps : List PageLayout) (es : List EntityInfo) :
    (addEntitiesToPages ps es).map (·.lines) = ps.map (·.lines) := by
  unfold addEntitiesToPages
  rw [List.map_map]
  rfl

theorem map_page_id_addEntities (ps : List PageLayout) (es : List EntityInfo) :
    (addEntitiesToPages ps es).map (·.page_id) = ps.map (·.page_id) := by
  unfold addEntitiesToPages
  rw [List.map_map]
  rfl

theorem length_addEntities (ps : List PageLayout) (es : List EntityInfo) :
    (addEntitiesToPages ps es).length = ps.length := by
  unfold addEntitiesToPages
  exact List.length_map _ _

theorem allLines_addEntities (ps : List PageLayout) (es : List EntityInfo) :
    allLines (addEntitiesToPages ps es) = allLines ps := by
  unfold allLines
  rw [map_lines_addEntities]

theorem docText_generatePages (cap p : Int) (tokens : List TokenInfo)
    (entities : List EntityInfo) :
    docText (generatePages cap p tokens entities) = joinT tokens := by
  have h := inv_run cap p tokens
  unfold generatePages docText
  rw [allLines_addEntities, allLines_finalPages]
  by_cases hcl : (tokens.foldl (stepToken cap p) initState).current_line = []
  · rw [if_pos hcl]
    have := h.textEq
    rw [hcl] at this
    simpa using this
  · rw [if_neg hcl]
    have := h.textEq
    rw [joinL_append, joinL_single]
    simpa [curLine] using this

theorem allLines_wf (cap p : Int) (tokens : List TokenInfo) (entities : List EntityInfo) :
    ∀ l ∈ allLines (generatePages cap p tokens entities),
      l.length = l.text.length ∧ l.text = joinT l.tokens := by
  have h := inv_run cap p tokens
  unfold generatePages
  rw [allLines_addEntities, allLines_finalPages]
  intro l hl
  rcases List.mem_append.mp hl with hmem | hnew
  · exact h.wf l hmem
  · rcases Decidable.em
      ((tokens.foldl (stepToken cap p) initState).current_line = []) with hcl | hcl
    · rw [if_pos hcl] at hnew
      simp at hnew
    · rw [if_neg hcl] at hnew
      have : l = curLine (tokens.foldl (stepToken cap p) initState) := by
        simpa using hnew
      subst this
      exact ⟨rfl, h.curTok⟩

theorem offsets_generatePages (cap p : Int) (tokens : List TokenInfo)
    (entities : List EntityInfo) :
    offsetsFrom 0 (allLines (generatePages cap p tokens entities)) := by
  have h := inv_run cap p tokens
  unfold generatePages
  rw [allLines_addEntities, allLines_finalPages]
  by_cases hcl : (tokens.foldl (stepToken cap p) initState).current_line = []
  · rw [if_pos hcl]
    simpa using h.offs
  · rw [if_neg hcl]
    exact offsetsFrom_append_single h.offs (by simpa [curLine] using h.offEq)

/-! ### Claim theorems: C2, C7, C10 -/

/-- C2: for every input token stream (and any capacities), concatenating the
text of all emitted lines in page/line order equals the concatenation of all
input tokens' text exactly, and the sum of all line lengths equals the sum
of all token text lengths — pagination never drops or duplicates
characters. -/
theorem pagination_roundtrip (cap p : Int) (tokens : List TokenInfo)
    (entities : List EntityInfo) :
    docText (generatePages cap p tokens entities) = joinT tokens ∧
    ((allLines (generatePages cap p tokens entities)).map (·.length)).sum =
      (tokens.map (·.text.length)).sum := by
  refine ⟨docText_generatePages cap p tokens entities, ?_⟩
  have hwf := allLines_wf cap p tokens entities
  have h1 : ((allLines (generatePages cap p tokens entities)).map (·.length)).sum =
      ((allLines (generatePages cap p tokens entities)).map (fun l => l.text.length)).sum := by
    apply congrArg
    exact List.map_congr_left (fun l hl => (hwf l hl).1)
  have h2 : (docText (generatePages cap p tokens entities)).length =
      (joinT tokens).length := by
    rw [docText_generatePages cap p tokens entities]
  rw [h1]
  unfold docText joinL at h2
  unfold joinT at h2
  simpa [List.length_flatten, List.map_map, Function.comp] using h2

/-! ### Capacity invariant (for C3) -/

theorem capInv_init (cap : Nat) : CapInv cap initState := by
  refine ⟨?_, Or.inl ?_⟩
  · intro l hl
    simp [allStateLines, initState] at hl
  · simp [initState]

theorem capInv_step (cap : Nat) (p : Int) (t : TokenInfo) {s : GenState}
    (h : CapInv cap s) : CapInv cap (stepToken (↑cap) p s t) := by
  obtain ⟨hLs, hCur⟩ := h
  unfold stepToken
  by_cases hb : shouldBreakLine (↑cap) s.current_line t s.current_line_tokens = true
  · rw [if_pos hb]
    refine ⟨?_, Or.inr ⟨t, by simp⟩⟩
    intro l hl
    simp only [allStateLines_appendTok, allStateLines_resetLine,
      allStateLines_closePageIfFull] at hl
    rcases Decidable.em (s.current_line = []) with hcl | hcl
    · rw [if_pos hcl] at hl
      exact hLs l hl
    · rw [if_neg hcl, allStateLines_closeLine] at hl
      rcases List.mem_append.mp hl with hold | hnew
      · exact hLs l hold
      · have : l = curLine s := by simpa using hnew
        subst this
        exact hCur
  · rw [if_neg hb]
    refine ⟨?_, Or.inl ?_⟩
    · intro l hl
      exact hLs l (by simpa using hl)
    · have : ¬ ((s.current_line.length : Int) + (t.text.length : Int) > (cap : Int)) := by
        intro hgt
        apply hb
        unfold shouldBreakLine
        rw [if_pos hgt]
      simp only [current_line_appendTok, List.length_append]
      omega

theorem capInv_run (cap : Nat) (p : Int) (tokens : List TokenInfo) :
    CapInv cap (tokens.foldl (stepToken (↑cap) p) initState) := by
  suffices h : ∀ (ts : List TokenInfo) (s : GenState), CapInv cap s →
      CapInv cap (ts.foldl (stepToken (↑cap) p) s) from
    h tokens initState (capInv_init cap)
  intro ts
  induction ts with
  | nil => intro s h; exact h
  | cons t ts ih =>
    intro s h
    exact ih _ (capInv_step cap p t h)

theorem mem_length_le_joinT {t : TokenInfo} {ts : List TokenInfo} (h : t ∈ ts) :
    t.text.length ≤ (joinT ts).length := by
  unfold joinT
  rw [List.length_flatten]
  apply List.single_le_sum (fun x _ => Nat.zero_le x)
  rw [List.map_map]
  exact List.mem_map_of_mem _ h

theorem allLines_capOk (cap : Nat) (p : Int) (tokens : List TokenInfo)
    (entities : List EntityInfo) :
    ∀ l ∈ allLines (generatePages (↑cap) p tokens entities),
      l.text.length ≤ cap ∨ ∃ t, l.tokens = [t] := by
  have h := capInv_run cap p tokens
  unfold generatePages
  rw [allLines_addEntities, allLines_finalPages]
  intro l hl
  rcases List.mem_append.mp hl with hmem | hnew
  · exact h.linesOk l hmem
  · rcases Decidable.em
      ((tokens.foldl (stepToken (↑cap) p) initState).current_line = []) with hcl | hcl
    · rw [if_pos hcl] at hnew
      simp at hnew
    · rw [if_neg hcl] at hnew
      have : l = curLine (tokens.foldl (stepToken (↑cap) p) initState) := by
        simpa using hnew
      subst this
      exact h.curOk

/-- The last tokens of the stream end up inside the final emitted line
whenever the final line buffer is non-empty. -/
theorem cover_generatePages (cap p : Int) (tokens : List TokenInfo)
    (entities : List EntityInfo) :
    ∀ t ∈ tokens, t.text ≠ [] →
      ∃ l ∈ allLines (generatePages cap p tokens entities), t ∈ l.tokens := by
  have h := inv_run cap p tokens
  unfold generatePages
  rw [allLines_addEntities, allLines_finalPages]
  intro t ht hne
  rcases h.cover t ht hne with ⟨l, hl, htl⟩ | hct
  · exact ⟨l, List.mem_append_left _ hl, htl⟩
  · have hcl : (tokens.foldl (stepToken cap p) initState).current_line ≠ [] := by
      have hle := mem_length_le_joinT hct
      rw [← h.curTok] at hle
      have : 0 < t.text.length := List.length_pos.mpr hne
      intro hnil
      rw [hnil] at hle
      simp only [List.length_nil, Nat.le_zero] at hle
      omega
    refine ⟨curLine (tokens.foldl (stepToken cap p) initState), ?_, hct⟩
    rw [if_neg hcl]
    exact List.mem_append_right _ (by simp)

/-- C3: for every token stream and positive `chars_per_line`, every emitted
line either fits the capacity or consists of a single token whose text is
the whole line; and a token longer than the capacity is placed unfragmented
into a line containing only that token. -/
theorem lines_respect_capacity (cap : Nat) (hcap : 0 < cap) (p : Int)
    (tokens : List TokenInfo) (entities : List EntityInfo) :
    (∀ l ∈ allLines (generatePages (↑cap) p tokens entities),
       l.text.length ≤ cap ∨ ∃ t, l.tokens = [t] ∧ l.text = t.text) ∧
    (∀ t ∈ tokens, cap < t.text.length →
       ∃ l ∈ allLines (generatePages (↑cap) p tokens entities),
         l.tokens = [t] ∧ l.text = t.text) := by
  have hdich : ∀ l ∈ allLines (generatePages (↑cap) p tokens entities),
      l.text.length ≤ cap ∨ ∃ t, l.tokens = [t] ∧ l.text = t.text := by
    intro l hl
    rcases allLines_capOk cap p tokens entities l hl with hle | ⟨t, htl⟩
    · exact Or.inl hle
    · refine Or.inr ⟨t, htl, ?_⟩
      have := (allLines_wf (↑cap) p tokens entities l hl).2
      rw [this, htl, joinT_single]
  refine ⟨hdich, ?_⟩
  intro t ht hlen
  have hne : t.text ≠ [] := by
    intro hnil
    rw [hnil] at hlen
    simp at hlen
  obtain ⟨l, hl, htl⟩ := cover_generatePages (↑cap) p tokens entities t ht hne
  rcases hdich l hl with hle | ⟨t', ht', htext⟩
  · exfalso
    have h1 := mem_length_le_joinT htl
    have h2 := (allLines_wf (↑cap) p tokens entities l hl).2
    rw [← h2] at h1
    omega
  · have : t = t' := by
      rw [ht'] at htl
      simpa using htl
    subst this
    exact ⟨l, hl, ht', htext⟩

/-! ### Page-size invariant (for C4) -/

theorem pageInv_init (p : Nat) (hp : 0 < p) : PageInv p initState := by
  refine ⟨?_, ?_⟩
  · intro pg hpg
    simp [initState] at hpg
  · simpa [initState] using hp

theorem pageInv_step (p : Nat) (hp : 0 < p) (cap : Int) (t : TokenInfo) {s : GenState}
    (h : PageInv p s) : PageInv p (stepToken cap (↑p) s t) := by
  obtain ⟨hP, hCur⟩ := h
  unfold stepToken
  by_cases hb : shouldBreakLine cap s.current_line t s.current_line_tokens = true
  · rw [if_pos hb]
    by_cases hcl : s.current_line = []
    · rw [if_pos hcl]
      have hno : ¬ ((s.current_page.lines.length : Int) ≥ (p : Int)) := by
        omega
      unfold closePageIfFull
      rw [if_neg hno]
      exact ⟨by simpa using hP, by simpa using hCur⟩
    · rw [if_neg hcl]
      have hlen : (closeLine s).current_page.lines.length =
          s.current_page.lines.length + 1 := by
        simp [closeLine]
      unfold closePageIfFull
      split
      · next hge =>
        refine ⟨?_, ?_⟩
        · intro pg hpg
          simp only [pages_appendTok, pages_resetLine] at hpg
          rcases List.mem_append.mp hpg with hold | hnew
          · exact hP pg (by simpa using hold)
          · have : pg = (closeLine s).current_page := by simpa using hnew
            subst this
            rw [hlen] at hge ⊢
            push_cast at hge
            omega
        · simpa using hp
      · next hge =>
        refine ⟨by simpa using hP, ?_⟩
        rw [hlen] at hge
        push_cast at hge
        simp only [current_page_appendTok, current_page_resetLine, hlen]
        omega
  · rw [if_neg hb]
    exact ⟨by simpa using hP, by simpa using hCur⟩

theorem pageInv_run (p : Nat) (hp : 0 < p) (cap : Int) (tokens : List TokenInfo) :
    PageInv p (tokens.foldl (stepToken cap (↑p)) initState) := by
  suffices h : ∀ (ts : List TokenInfo) (s : GenState), PageInv p s →
      PageInv p (ts.foldl (stepToken cap (↑p)) s) from
    h tokens initState (pageInv_init p hp)
  intro ts
  induction ts with
  | nil => intro s h; exact h
  | cons t ts ih =>
    intro s h
    exact ih _ (pageInv_step p hp cap t h)

theorem dropLast_addEntities (ps : List PageLayout) (es : List EntityInfo) :
    (addEntitiesToPages ps es).dropLast = addEntitiesToPages ps.dropLast es := by
  unfold addEntitiesToPages
  rw [List.dropLast_eq_take, List.dropLast_eq_take, List.length_map, ← List.map_take]

theorem lines_lastLineState_le (s : GenState) :
    (lastLineState s).current_page.lines.length ≤ s.current_page.lines.length + 1 := by
  unfold lastLineState closeLastLine
  split
  · omega
  · simp

/-- C4: for every token stream and positive `lines_per_page`, every emitted
page except the last holds exactly `lines_per_page` lines, every emitted
page holds between 1 and `lines_per_page` lines, the page list is empty iff
the layout yields no lines, and an empty token stream yields zero pages. -/
theorem pages_respect_size (p : Nat) (hp : 0 < p) (cap : Int)
    (tokens : List TokenInfo) (entities : List EntityInfo) :
    (∀ pg ∈ (generatePages cap (↑p) tokens entities).dropLast,
       pg.lines.length = p) ∧
    (∀ pg ∈ generatePages cap (↑p) tokens entities,
       1 ≤ pg.lines.length ∧ pg.lines.length ≤ p) ∧
    (generatePages cap (↑p) tokens entities = [] ↔
       allLines (generatePages cap (↑p) tokens entities) = []) ∧
    (tokens = [] → generatePages cap (↑p) tokens entities = []) := by
  have h := pageInv_run p hp cap tokens
  have hall : ∀ pg ∈ generatePages cap (↑p) tokens entities,
      1 ≤ pg.lines.length ∧ pg.lines.length ≤ p := by
    intro pg hpg
    unfold generatePages addEntitiesToPages at hpg
    obtain ⟨pg0, hpg0, rfl⟩ := List.mem_map.mp hpg
    show 1 ≤ pg0.lines.length ∧ pg0.lines.length ≤ p
    rcases finalPages_cases (tokens.foldl (stepToken cap (↑p)) initState) with
      ⟨heq, -⟩ | ⟨heq, hne⟩
    · rw [heq] at hpg0
      have := h.pagesOk pg0 hpg0
      omega
    · rw [heq] at hpg0
      rcases List.mem_append.mp hpg0 with hold | hnew
      · have := h.pagesOk pg0 hold
        omega
      · have heq2 : pg0 =
            (lastLineState (tokens.foldl (stepToken cap (↑p)) initState)).current_page := by
          simpa using hnew
        rw [heq2]
        have h1 := lines_lastLineState_le (tokens.foldl (stepToken cap (↑p)) initState)
        have h2 := h.curOk
        have h3 := List.length_pos.mpr hne
        omega
  refine ⟨?_, hall, ⟨?_, ?_⟩, ?_⟩
  · intro pg hpg
    unfold generatePages at hpg
    rw [dropLast_addEntities] at hpg
    unfold addEntitiesToPages at hpg
    obtain ⟨pg0, hpg0, rfl⟩ := List.mem_map.mp hpg
    show pg0.lines.length = p
    have hmem : pg0 ∈ (tokens.foldl (stepToken cap (↑p)) initState).pages := by
      rcases finalPages_cases (tokens.foldl (stepToken cap (↑p)) initState) with
        ⟨heq, -⟩ | ⟨heq, -⟩
      · rw [heq] at hpg0
        exact List.dropLast_subset _ hpg0
      · rw [heq, List.dropLast_concat] at hpg0
        exact hpg0
    exact h.pagesOk pg0 hmem
  · intro h0
    rw [h0]
    rfl
  · intro h0
    rcases hpgs : generatePages cap (↑p) tokens entities with _ | ⟨a, l⟩
    · rfl
    · exfalso
      have ha : a ∈ generatePages cap (↑p) tokens entities := by
        rw [hpgs]
        exact List.mem_cons_self a l
      have h1 := (hall a ha).1
      rw [hpgs] at h0
      unfold allLines at h0
      have h2 : a.lines = [] := by
        exact List.flatten_eq_nil_iff.mp h0 a.lines (by simp)
      rw [h2] at h1
      simp at h1
  · intro h0
    subst h0
    rfl

/-- C9: the line-break decision is equivalent to the pure capacity
predicate: the check returns `true` iff the current line plus the token
exceeds `chars_per_line`; the declared no-line-initial-punctuation branch
always yields `false` and never alters the result. -/
theorem break_decision_is_pure_capacity (cap : Int) (current_line : List Char)
    (token : TokenInfo) (current_tokens : List TokenInfo) :
    shouldBreakLine cap current_line token current_tokens =
      decide ((current_line.length : Int) + (token.text.length : Int) > cap) := by
  unfold shouldBreakLine
  split
  · next h => simp [h]
  · next h =>
    split
    · simp [h]
    · simp [h]

/-! ### Offset tracker facts (C8) -/

theorem findFromAux_ge (text word : List Char) :
    ∀ (fuel i j : Nat), findFromAux text word i fuel = some j → i ≤ j := by
  intro fuel
  induction fuel with
  | zero =>
    intro i j h
    simp [findFromAux] at h
  | succ fuel ih =>
    intro i j h
    unfold findFromAux at h
    split at h
    · split at h
      · exact Nat.le_of_eq (Option.some.inj h)
      · have := ih (i + 1) j h
        omega
    · exact Option.noConfusion h

theorem strFind_ge {text word : List Char} {i j : Nat}
    (h : strFind text word i = some j) : i ≤ j :=
  findFromAux_ge text word _ i j h

theorem nextStart_ge (text word : List Char) (cur : Nat) :
    cur ≤ nextStart text word cur := by
  unfold nextStart
  cases hf : strFind text word cur with
  | none => simp
  | some j => simpa using strFind_ge hf

theorem buildTokensGo_facts (text : List Char) (ner : List (Nat × Nat × String)) :
    ∀ (ps : List (List Char × String)) (cur : Nat),
      (∀ t ∈ buildTokensGo text ner ps cur,
         cur ≤ t.start ∧ t.«end» = t.start + t.text.length) ∧
      List.Chain' (fun a b => a.«end» ≤ b.start) (buildTokensGo text ner ps cur) := by
  intro ps
  induction ps with
  | nil =>
    intro cur
    constructor
    · intro t ht
      simp [buildTokensGo] at ht
    · simp [buildTokensGo]
  | cons hd rest ih =>
    intro cur
    obtain ⟨w, pg⟩ := hd
    have hrec := ih (nextStart text w cur + w.length)
    constructor
    · intro t ht
      rcases List.mem_cons.mp ht with heq | hrest
      · subst heq
        exact ⟨nextStart_ge text w cur, rfl⟩
      · have h1 := (hrec.1 t hrest).1
        have h2 := (hrec.1 t hrest).2
        have h3 := nextStart_ge text w cur
        exact ⟨by omega, h2⟩
    · show List.Chain' (fun a b => a.«end» ≤ b.start)
        (_ :: buildTokensGo text ner rest (nextStart text w cur + w.length))
      rw [List.chain'_cons']
      constructor
      · intro b hb
        have hbmem : b ∈ buildTokensGo text ner rest (nextStart text w cur + w.length) :=
          List.mem_of_mem_head? hb
        exact (hrec.1 b hbmem).1
      · exact hrec.2

/-- C8: for every source text and word/tag sequence, the tokens built by
`_build_tokens` have monotonically non-decreasing offsets: each token's
start is at least the previous token's end (the fallback making the token
adjacent when its text is not found), and each token's end equals its start
plus its text length; the construction is total, so the not-found condition
raises no exception. -/
theorem token_offsets_monotone (text : List Char) (ws : List (List Char))
    (pos : List String) (ner : List (Nat × Nat × String)) :
    (∀ t ∈ buildTokens text ws pos ner, t.«end» = t.start + t.text.length) ∧
    List.Chain' (fun a b => a.«end» ≤ b.start) (buildTokens text ws pos ner) := by
  have h := buildTokensGo_facts text ner (ws.zip pos) 0
  exact ⟨fun t ht => (h.1 t ht).2, h.2⟩

/-! ### Entity projection counting (C1) -/

theorem projectEntity_isSome (lines : List LineInfo) (e : EntityInfo) :
    (projectEntity lines e).isSome = lines.any (fun l => lineOverlap e l) := by
  unfold projectEntity
  cases hfind : lines.find? (fun l => lineOverlap e l) with
  | none =>
    by_cases ha : lines.any (fun l => lineOverlap e l) = true
    · obtain ⟨x, hx, hpx⟩ := List.any_eq_true.mp ha
      have : (lines.find? (fun l => lineOverlap e l)).isSome :=
        List.find?_isSome.mpr ⟨x, hx, hpx⟩
      rw [hfind] at this
      simp at this
    · simp [Bool.eq_false_iff.mpr ha]
  | some l =>
    have hl : lineOverlap e l = true := List.find?_some hfind
    have hmem : l ∈ lines := List.mem_of_find?_eq_some hfind
    have ha : lines.any (fun l' => lineOverlap e l') = true :=
      List.any_eq_true.mpr ⟨l, hmem, hl⟩
    simp [ha]

theorem length_filterMap_projectEntity (lines : List LineInfo)
    (es : List EntityInfo) :
    (es.filterMap (projectEntity lines)).length =
      es.countP (fun e => lines.any (fun l => lineOverlap e l)) := by
  induction es with
  | nil => rfl
  | cons e es ih =>
    rw [List.filterMap_cons, List.countP_cons]
    cases hf : projectEntity lines e with
    | none =>
      have hany : lines.any (fun l => lineOverlap e l) = false := by
        rw [← projectEntity_isSome, hf]
        rfl
      rw [ih, hany]
      simp
    | some pe =>
      have hany : lines.any (fun l => lineOverlap e l) = true := by
        rw [← projectEntity_isSome, hf]
        rfl
      rw [List.length_cons, ih, hany]
      simp

/-- C1 (amended): every entity that overlaps at least one line of a page is
attached exactly once *within that page* (and an entity overlapping no line
of the page contributes nothing to that page) — per page, the number of
projected records equals the number of entities overlapping some line of
the page; across pages an entity may therefore appear once per overlapping
page. -/
theorem entity_projection_once_per_page (cap p : Int) (tokens : List TokenInfo)
    (entities : List EntityInfo) :
    ∀ pg ∈ generatePages cap p tokens entities,
      pg.entities.length =
        entities.countP (fun e => pg.lines.any (fun l => lineOverlap e l)) := by
  intro pg hpg
  unfold generatePages addEntitiesToPages at hpg
  obtain ⟨pg0, hpg0, rfl⟩ := List.mem_map.mp hpg
  exact length_filterMap_projectEntity pg0.lines entities

/-- C7: the `page_id` values of the emitted page list are exactly the
sequence `1, 2, ..., total_pages` in order — strictly increasing with no
gaps, where `total_pages` is the number of emitted pages. -/
theorem page_ids_sequential (cap p : Int) (tokens : List TokenInfo)
    (entities : List EntityInfo) :
    (generatePages cap p tokens entities).map (·.page_id) =
      List.range' 1 (generatePages cap p tokens entities).length := by
  have h := inv_run cap p tokens
  unfold generatePages
  rw [map_page_id_addEntities, length_addEntities]
  rcases finalPages_cases (tokens.foldl (stepToken cap p) initState) with
    ⟨heq, -⟩ | ⟨heq, -⟩
  · rw [heq]
    exact h.ids
  · rw [heq]
    rw [List.map_append, h.ids, List.length_append]
    simp only [List.map_cons, List.map_nil, page_id_lastLineState, h.curId,
      List.length_cons, List.length_nil]
    rw [List.range'_concat]
    simp [Nat.mul_comm]
    omega

/-- C1 (counterexample): entity `eBC` (span `[1,3)`) overlaps a line of the
layout, yet after projection it appears twice across the pages — once in
each of the two pages whose lines it overlaps — refuting "appears exactly
once across all pages". -/
theorem entity_attached_twice :
    (∃ pg ∈ generatePages 2 1 [tAB, tCD] [eBC],
        ∃ l ∈ pg.lines, lineOverlap eBC l = true) ∧
    ((generatePages 2 1 [tAB, tCD] [eBC]).map (fun pg => pg.entities.length)).sum = 2 := by
  constructor
  · decide
  · decide

/-- Witness for the amended C1 theorem at a concrete page of
`generatePages 2 1 [tAB, tCD] [eBC]`. -/
theorem entity_projection_once_per_page_witness :
    pageC1Wit.entities.length =
      [eBC].countP (fun e => pageC1Wit.lines.any (fun l => lineOverlap e l)) :=
  entity_projection_once_per_page 2 1 [tAB, tCD] [eBC] pageC1Wit (by decide)

/-- C5 (counterexample): with `chars_per_line = 0` (non-positive) the
layout pass does not reject the configuration or fail fast: it runs and
produces a complete one-page layout. -/
theorem no_rejection_for_nonpositive_capacity :
    (0 : Int) ≤ 0 ∧
    generatePages 0 18 [tAB] [] =
      [{ page_id := 1, lines := [lineAB], entities := [], total_chars := 2 }] := by
  constructor
  · decide
  · decide

/-- C5 (amended): the engine performs no validation of the capacity
parameters: even when `chars_per_line ≤ 0` or `lines_per_page ≤ 0` the
layout pass runs to completion and emits the complete text — no failure and
no partial output. -/
theorem no_capacity_validation (cap p : Int) (hnp : cap ≤ 0 ∨ p ≤ 0)
    (tokens : List TokenInfo) (entities : List EntityInfo) :
    docText (generatePages cap p tokens entities) = joinT tokens :=
  docText_generatePages cap p tokens entities

/-- Witness for the amended C5 theorem at `chars_per_line = 0`. -/
theorem no_capacity_validation_witness :
    docText (generatePages 0 18 [tAB] []) = joinT [tAB] :=
  no_capacity_validation 0 18 (Or.inl (by decide)) [tAB] []

/-- C6 (code bug): the plain-text serializer of `ckip_processor.py` does
not produce the documented positional markers: on a concrete two-page
layout its `lines` list contains no `<PAGE_...>` or `<LINE_...>` marker
(it emits `第 N 页` banners instead) and the method returns `None` because
its body ends without a `return`; the marker serializer — present in the
repository's tests and described by the spec — yields exactly the
documented marker format on the same input. -/
theorem txt_serializer_lacks_markers :
    generateTxtContent 35 pagesC6 = none ∧
    ((generateTxtContentLines 35 pagesC6).any
        (fun l => "<PAGE_".data.isPrefixOf l || "<LINE_".data.isPrefixOf l)) = false ∧
    specTxtContent pagesC6 =
      ("<PAGE_001_START>\n\n<LINE_001_01> AB\n<PAGE_001_END>\n\n\n" ++
        "<PAGE_002_START>\n\n<LINE_002_01> CD\n<PAGE_002_END>\n").data := by
  refine ⟨rfl, by decide, by decide⟩

/-- Witness for the C3 theorem at a concrete line of
`generatePages 2 1 [tAB, tCD] []`. -/
theorem lines_respect_capacity_witness :
    lineAB.text.length ≤ 2 ∨ ∃ t, lineAB.tokens = [t] ∧ lineAB.text = t.text :=
  (lines_respect_capacity 2 (by decide) 1 [tAB, tCD] []).1 lineAB (by decide)

/-- Witness for the C4 theorem at a concrete page of
`generatePages 2 1 [tAB, tCD] []`. -/
theorem pages_respect_size_witness :
    1 ≤ pageABWit.lines.length ∧ pageABWit.lines.length ≤ 1 :=
  (pages_respect_size 1 (by decide) 2 [tAB, tCD] []).2.1 pageABWit (by decide)

/-- Witness for the C8 theorem at a concrete offset-tracker run. -/
theorem token_offsets_monotone_witness :
    tAB.«end» = tAB.start + tAB.text.length :=
  (token_offsets_monotone "AB".data ["AB".data] ["Na"] []).1 tAB (by decide)

/-- C10 (implicit): the emitted lines taken in document order have
contiguous running offsets — the first line has offset 0 and each
subsequent line's offset is the previous line's offset plus the previous
line's length (each line's `length` field being the length of its text), so
the lines' ranges tile `[0, total_chars)`. -/
theorem line_offsets_contiguous (cap p : Int) (tokens : List TokenInfo)
    (entities : List EntityInfo) :
    offsetsFrom 0 (allLines (generatePages cap p tokens entities)) ∧
    ∀ l ∈ allLines (generatePages cap p tokens entities),
      l.length = l.text.length := by
  refine ⟨offsets_generatePages cap p tokens entities, ?_⟩
  intro l hl
  exact (allLines_wf cap p tokens entities l hl).1

/-- Witness for the C10 theorem at a concrete line of
`generatePages 2 1 [tAB, tCD] []`. -/
theorem line_offsets_contiguous_witness :
    lineCD.length = lineCD.text.length :=
  (line_offsets_contiguous 2 1 [tAB, tCD] []).2 lineCD (by decide)

end Typeset
